import Mathlib

/-!
Verification development for the spyden template-matching S/N engine.

The Python source is embedded shallowly:

* numpy arrays along one axis become `List K` over a scalar type `K`;
  a batch of profiles becomes `List (List K)`.
* The scalar type is generic: `K` is any `LinearOrderedField` equipped with
  a square-root operation (`SqrtFn`).  `ℝ` with `Real.sqrt` is the idealized
  semantics of the floating-point `** 0.5` in the source; `ℚ` (with the
  integer-part `Rat.sqrt` as a stand-in, on which no theorem depends) is
  used to evaluate witnesses on concrete inputs.
* `np.roll`, `np.pad`, slicing and elementwise arithmetic are translated
  operation by operation.
* The FFT pipeline `irfft(rfft(x) * rfft(y))` is embedded by its exact
  mathematical semantics, the circular convolution `cconv`.
* Python exceptions become `Except SpydenError`; the error taxonomy of the
  spec maps each `ValueError` of the source to a constructor carrying the
  data mentioned in its message.
* Floating-point dtype casts (`astype(np.float32)`) are the identity in the
  exact-arithmetic model.
-/

set_option linter.unusedSectionVars false

/-- Error taxonomy: one constructor per distinct failure of the source,
carrying the data its message interpolates. -/
inductive SpydenError where
  /-- `ValueError` raised for malformed template data or refbin
  (spec: `InvalidShapeError`). -/
  | invalidShape (msg : String)
  /-- `ValueError` raised by `Template.prepared_data` when the target length
  is smaller than the template size (spec: `PaddingError`). -/
  | padding (n size : ℕ)
  /-- `ValueError` raised on an unrecognised estimator name, listing the
  valid choices (spec: `UnknownMethodError`). -/
  | unknownMethod (choices : List String)
  /-- `TypeError: NoneType object is not callable` - what actually happens
  in the draft revision of `noisestats.get_method` on an unknown name. -/
  | noneTypeNotCallable
  /-- `ValueError` for numpy broadcast failures
  (`operands could not be broadcast together`). -/
  | broadcastMismatch (dst src : ℕ)
  deriving DecidableEq, Repr

namespace Spyden

/-- Square-root operation on the scalar type.  `Real.sqrt` on `ℝ` is the
idealized semantics of the source's `** 0.5`. -/
class SqrtFn (K : Type) where
  sqrt : K → K

instance : SqrtFn ℚ := ⟨Rat.sqrt⟩

noncomputable instance : SqrtFn ℝ := ⟨Real.sqrt⟩

section ListOps

variable {K : Type} [LinearOrderedField K]

/-- Embedding of `np.roll(a, s)` on a 1-D array: the result at index `k`
is `a[(k - s) mod n]` (negative `s` rotates left). -/
def rollZ (a : List K) (s : ℤ) : List K :=
  (List.range a.length).map
    (fun (k : ℕ) => a.getD ((((k : ℤ) - s) % (a.length : ℤ)).toNat) 0)

/-- Embedding of `np.pad(a, (0, n - len(a)), mode='constant')`:
append zeros on the right up to length `n`. -/
def padRight (a : List K) (n : ℕ) : List K :=
  a ++ List.replicate (n - a.length) 0

/-- Embedding of `(data ** 2).sum()`. -/
def sqsum (l : List K) : K :=
  (l.map (fun v => v ^ 2)).sum

/-- Embedding of `ceilpow2` from `cpad.py`:
`2 ** int(ceil(log2(n)))`, i.e. the least power of two that is `>= n`. -/
def ceilpow2 (n : ℕ) : ℕ :=
  2 ^ Nat.clog 2 n

/-- Embedding of `cpadpow2` from `cpad.py` on one row (the last axis):
pad to the next power of two with `mode='wrap'`, i.e. the entry at
absolute index `n + j` of the output is `x[(n + j) mod n]`. -/
def cpadpow2 (x : List K) : List K :=
  x ++ (List.range (ceilpow2 x.length - x.length)).map
    (fun j => x.getD ((x.length + j) % x.length) 0)

end ListOps

/-- Embedding of the `Template` class of `template.py`: the stored
(already normalised, in the source) pulse values, the reference bin, and
the purely informational string metadata.  `shape_params` carries no
computed behaviour and is omitted. -/
structure Template (K : Type) where
  data : List K
  refbin : ℕ
  reference : String
  kind : String
  deriving DecidableEq, Repr

instance {K : Type} : Inhabited (Template K) := ⟨⟨[], 0, "", ""⟩⟩

section TemplateOps

variable {K : Type} [LinearOrderedField K]

/-- Embedding of the body of `Template.prepared_data` (after its length
check): zero-pad on the right to `n` bins, `np.roll` by `-refbin` to put
the reference bin at index 0, then apply `np.roll(x[::-1], 1)`, the
circular time-reversal.  The final `astype(np.float32)` is the identity
in the exact-arithmetic model. -/
def preparedData (data : List K) (refbin : ℕ) (n : ℕ) : List K :=
  let x := padRight data n
  let x := rollZ x (-(refbin : ℤ))
  rollZ x.reverse 1

/-- Embedding of `Template.prepared_data` including its validation:
raises (`PaddingError` in the spec taxonomy) iff `n < size`. -/
def Template.prepared_data (t : Template K) (n : ℕ) : Except SpydenError (List K) :=
  if n < t.data.length then .error (.padding n t.data.length)
  else .ok (preparedData t.data t.refbin n)

end TemplateOps

/-- A numpy array as passed to the `Template` constructor: a shape together
with the (row-major) flattened values.  Only used to express the
dimensionality validation of `Template.__init__`. -/
structure NDArray (K : Type) where
  shape : List ℕ
  flat : List K

/-- Number of axes (`ndarray.ndim`). -/
def NDArray.ndim {K : Type} (a : NDArray K) : ℕ := a.shape.length

/-- Total number of elements (`ndarray.size`). -/
def NDArray.size {K : Type} (a : NDArray K) : ℕ := a.shape.prod

/-- Embedding of `normalise` from `template.py`:
`data * sqsum ** -0.5`, over the idealized reals (`rpow`). -/
noncomputable def normalise (d : List ℝ) : List ℝ :=
  d.map (fun v => v * sqsum d ^ (-(1 : ℝ) / 2))

/-- Embedding of `Template.__init__` from `template.py` (final revision,
`src/spyden`): validate dimensionality, non-emptiness and the reference
bin, then store the normalised data.  The `isinstance` checks on `data`
and `refbin` are inherent in the types of the embedding. -/
noncomputable def Template.init (a : NDArray ℝ) (refbin : ℤ)
    (reference : String) (kind : String) : Except SpydenError (Template ℝ) :=
  if a.ndim ≠ 1 then .error (.invalidShape "data must have exactly one dimension")
  else if a.size = 0 then .error (.invalidShape "data is empty")
  else if ¬ (0 ≤ refbin ∧ refbin < (a.size : ℤ)) then
    .error (.invalidShape "Must have 0 <= refbin < data.size")
  else .ok ⟨normalise a.flat, refbin.toNat, reference, kind⟩

section NoiseStats

variable {K : Type} [LinearOrderedField K] [SqrtFn K]

/-- Ascending sort of one row, as performed internally by `np.percentile`
and `np.median`. -/
def sortAsc (l : List K) : List K :=
  l.mergeSort (fun a b => decide (a ≤ b))

/-- Embedding of `np.percentile(line, q)` with the default linear
interpolation: at fractional position `q / 100 * (n - 1)` of the sorted
row. -/
def percentileLine (q : ℚ) (line : List K) : K :=
  let s := sortAsc line
  let pos : ℚ := q * ((line.length : ℚ) - 1) / 100
  let lo : ℕ := ⌊pos⌋.toNat
  let frac : ℚ := pos - ⌊pos⌋
  s.getD lo 0 + (frac : K) * (s.getD (lo + 1) 0 - s.getD lo 0)

/-- The IQR-to-sigma conversion constant of `noisestats.py`. -/
def iqrConst : K := ((1.3489795003921634 : ℚ) : K)

/-- Embedding of `np.median(line)`: middle of the sorted row, or the mean
of the two middle entries for even length. -/
def medianLine (line : List K) : K :=
  let s := sortAsc line
  let n := line.length
  if n % 2 = 1 then s.getD (n / 2) 0
  else (s.getD (n / 2 - 1) 0 + s.getD (n / 2) 0) / 2

/-- Embedding of `np.diff(line)`: consecutive differences. -/
def diffList (line : List K) : List K :=
  (line.zip line.tail).map (fun ab => ab.2 - ab.1)

/-- Embedding of the off-diagonal entry `np.cov(a, b)[0, 1]` (default
`ddof = 1`): sample covariance normalised by `n - 1`. -/
def covPair (a b : List K) : K :=
  let n := a.length
  let ma := a.sum / (n : K)
  let mb := b.sum / (n : K)
  ((a.zip b).map (fun xy => (xy.1 - ma) * (xy.2 - mb))).sum / ((n : K) - 1)

/-- Embedding of `noise_std_iqr` (both revisions): per-profile
`(P75 - P25) / 1.3489795003921634`. -/
def noise_std_iqr (x : List (List K)) : List K :=
  x.map (fun line => (percentileLine 75 line - percentileLine 25 line) / iqrConst)

/-- Embedding of `noise_std_diffcov` (final revision): per profile, the
square root of minus the lag-1 covariance of the difference sequence. -/
def noise_std_diffcov (x : List (List K)) : List K :=
  x.map (fun line =>
    let y := diffList line
    SqrtFn.sqrt (-(covPair y.dropLast y.tail)))

/-- Embedding of `noise_mean_median` (final revision):
`np.median(x, axis=-1)`. -/
def noise_mean_median (x : List (List K)) : List K :=
  x.map medianLine

/-- The `NOISE_STD_METHODS` registry of the final revision
(`src/spyden/noisestats.py` in the spec layout): `iqr` and `diffcov`. -/
def NOISE_STD_METHODS : List (String × (List (List K) → List K)) :=
  [("iqr", noise_std_iqr), ("diffcov", noise_std_diffcov)]

/-- The `NOISE_MEAN_METHODS` registry of the final revision: `median`. -/
def NOISE_MEAN_METHODS : List (String × (List (List K) → List K)) :=
  [("median", noise_mean_median)]

/-- Embedding of `get_mean_method` (final revision):
`NOISE_MEAN_METHODS[name]`, whose `KeyError` on an unknown name is caught
and re-raised listing the valid choices. -/
def get_mean_method (name : String) :
    Except SpydenError (List (List K) → List K) :=
  match (NOISE_MEAN_METHODS (K := K)).lookup name with
  | some f => .ok f
  | none => .error (.unknownMethod ((NOISE_MEAN_METHODS (K := K)).map Prod.fst))

/-- Embedding of `get_std_method` (final revision):
`NOISE_STD_METHODS[name]`, whose `KeyError` on an unknown name is caught
and re-raised listing the valid choices. -/
def get_std_method (name : String) :
    Except SpydenError (List (List K) → List K) :=
  match (NOISE_STD_METHODS (K := K)).lookup name with
  | some f => .ok f
  | none => .error (.unknownMethod ((NOISE_STD_METHODS (K := K)).map Prod.fst))

/-- Embedding of `noise_mean` (final revision). -/
def noise_mean (data : List (List K)) (method : String) :
    Except SpydenError (List K) :=
  match get_mean_method (K := K) method with
  | .error e => .error e
  | .ok f => .ok (f data)

/-- Embedding of `noise_std` (final revision). -/
def noise_std (data : List (List K)) (method : String) :
    Except SpydenError (List K) :=
  match get_std_method (K := K) method with
  | .error e => .error e
  | .ok f => .ok (f data)

end NoiseStats

section Engine

variable {K : Type} [LinearOrderedField K] [SqrtFn K]

/-- The profile batch passed to `snratio`: a numpy array with 1 or 2
axes, the last axis being phase.  Other ranks are rejected by the source
before any numeric work and are unrepresentable here. -/
inductive ProfileInput (K : Type) where
  | one : List K → ProfileInput K
  | many : List (List K) → ProfileInput K

/-- The length of the last (phase) axis, `data.shape[-1]`. -/
def ProfileInput.lastDim : ProfileInput K → ℕ
  | .one d => d.length
  | .many m => (m.headD []).length

/-- Embedding of `data.reshape(-1, p)`: a 1-D profile becomes a batch of
one row. -/
def ProfileInput.rows : ProfileInput K → List (List K)
  | .one d => [d]
  | .many m => m

/-- The template argument of `snratio`: a `Template` or a `TemplateBank`
(an ordered list of Templates; its constructor rejects empty input, so a
bank is non-empty). -/
inductive TempArg (K : Type) where
  | single : Template K → TempArg K
  | bank : List (Template K) → TempArg K

/-- The list of templates the engine iterates over. -/
def TempArg.templates : TempArg K → List (Template K)
  | .single t => [t]
  | .bank ts => ts

/-- `ntemp = 1 if isinstance(temp, Template) else len(temp)`. -/
def TempArg.ntemp : TempArg K → ℕ
  | .single _ => 1
  | .bank ts => ts.length

/-- The `mu` / `sigma` arguments of `snratio`: either a numeric literal
or an estimator name.  Any other type is rejected by the source before
numeric work and is unrepresentable here. -/
inductive MethodOrValue (K : Type) where
  | value : K → MethodOrValue K
  | name : String → MethodOrValue K

/-- The four co-indexed outputs of `snratio`. -/
structure SnrResult (K : Type) where
  snr : List (List (List K))
  mean : List K
  std : List K
  models : List (List K)

/-- The last-axis length of a 2-D array modelled as a list of rows. -/
def lastDim2 (m : List (List K)) : ℕ :=
  (m.headD []).length

/-- Exact semantics of `irfft(rfft(a) * rfft(b))` for equal-length real
inputs: the circular convolution
`(a * b)[k] = sum over m of a[m] * b[(k - m) mod N]`. -/
def cconv (a b : List K) : List K :=
  (List.range a.length).map (fun k =>
    ((List.range a.length).map
      (fun m => a.getD m 0 * b.getD ((k + a.length - m) % a.length) 0)).sum)

/-- Embedding of `np.argmax`: index of the first occurrence of the
maximum (0 for an empty list). -/
def argmaxIdx : List K → ℕ
  | [] => 0
  | [_] => 0
  | a :: b :: rest =>
    let j := argmaxIdx (b :: rest)
    if a < (b :: rest).getD j 0 then j + 1 else 0

/-- Embedding of `models[iprof, :len(contrib)] += contrib`: numpy adds
elementwise when the slice and `contrib` have equal length (the slice
clips at `len(base)`, so this means `len(contrib) <= len(base)`), and
raises a broadcast `ValueError` otherwise. -/
def addIntoSlice (base contrib : List K) : Except SpydenError (List K) :=
  if contrib.length ≤ base.length then
    .ok ((base.take contrib.length).zipWith (· + ·) contrib ++
      base.drop contrib.length)
  else .error (.broadcastMismatch base.length contrib.length)

/-- The `mu` branch of `snratio`: a float is broadcast with
`np.full(nprof, mu)`; a string selects an estimator via `noise_mean`
(whose result, one value per row, the source reshapes to `(nprof,)`). -/
def computeMeanArg (rows : List (List K)) (mu : MethodOrValue K)
    (nprof : ℕ) : Except SpydenError (List K) :=
  match mu with
  | .value v => .ok (List.replicate nprof v)
  | .name s =>
    match get_mean_method (K := K) s with
    | .error e => .error e
    | .ok f => .ok (f rows)

/-- The `sigma` branch of `snratio`, analogous to `computeMeanArg`. -/
def computeStdArg (rows : List (List K)) (sigma : MethodOrValue K)
    (nprof : ℕ) : Except SpydenError (List K) :=
  match sigma with
  | .value v => .ok (List.replicate nprof v)
  | .name s =>
    match get_std_method (K := K) s with
    | .error e => .error e
    | .ok f => .ok (f rows)

/-- Embedding of `x = (x - mean.reshape(-1, 1)) / std.reshape(-1, 1)`:
per-row normalisation. -/
def normalizeRows (rows : List (List K)) (mean std : List K) :
    List (List K) :=
  (rows.zip (mean.zip std)).map
    (fun rms => rms.1.map (fun v => (v - rms.2.1) / rms.2.2))

/-- One iteration of the model-reconstruction loop of `snratio`: find the
flat argmax of the profile's S/N plane, unravel it to
`(itemp, ibin)`, start from the constant row `mean[i]`, add the winning
template's shape scaled by `std[i] * best_snr` over its first `size`
bins, and `np.roll` by `ibin - refbin`. -/
def modelRow (plane : List (List K)) (mi si : K) (ts : List (Template K))
    (p : ℕ) : Except SpydenError (List K) :=
  let iflat := argmaxIdx plane.flatten
  let itemp := iflat / p
  let ibin := iflat % p
  let best := (plane.getD itemp []).getD ibin 0
  let t := ts.getD itemp default
  match addIntoSlice (List.replicate p mi)
      (t.data.map (fun v => v * si * best)) with
  | .error e => .error e
  | .ok row => .ok (rollZ row ((ibin : ℤ) - (t.refbin : ℤ)))

/-- The model-reconstruction loop of `snratio` over all profiles. -/
def buildModels (snr : List (List (List K))) (mean std : List K)
    (ts : List (Template K)) (p : ℕ) :
    Except SpydenError (List (List K)) :=
  (List.range snr.length).mapM
    (fun i => modelRow (snr.getD i []) (mean.getD i 0) (std.getD i 0) ts p)

/-- The body of `snratio` after reshaping, on the 2-D row batch: noise
statistics, normalisation, circular power-of-two padding, the FFT
circular-convolution S/N map truncated back to `p` bins, and the
best-fit models. -/
def snratioCore (rows : List (List K)) (p : ℕ) (temp : TempArg K)
    (mu sigma : MethodOrValue K) : Except SpydenError (SnrResult K) :=
  match computeMeanArg rows mu rows.length with
  | .error e => .error e
  | .ok mean =>
    match computeStdArg rows sigma rows.length with
    | .error e => .error e
    | .ok std =>
      let xp := (normalizeRows rows mean std).map cpadpow2
      match (temp.templates).mapM
          (fun t => t.prepared_data (lastDim2 xp)) with
      | .error e => .error e
      | .ok ys =>
        let snr := xp.map (fun xrow => ys.map (fun y => (cconv xrow y).take p))
        match buildModels snr mean std temp.templates p with
        | .error e => .error e
        | .ok models => .ok ⟨snr, mean, std, models⟩

/-- Embedding of `snratio` from `snr.py`: reshape the input to 2-D and
run the engine. -/
def snratio (data : ProfileInput K) (temp : TempArg K)
    (mu sigma : MethodOrValue K) : Except SpydenError (SnrResult K) :=
  snratioCore data.rows data.lastDim temp mu sigma

end Engine

end Spyden

namespace SpydenDraft

/-! Embedding of the draft revision `src/spyden/noisestats.py` (the one
whose registry is `iqr` / `diff`), cited by claim C6. -/

variable {K : Type} [LinearOrderedField K] [Spyden.SqrtFn K]

/-- Embedding of the draft `noise_std_diff`: IQR of the difference
sequence, converted to sigma and divided by `sqrt 2`. -/
def noise_std_diff (x : List (List K)) : List K :=
  x.map (fun line =>
    let delta := Spyden.diffList line
    ((Spyden.percentileLine 75 delta - Spyden.percentileLine 25 delta) /
      Spyden.iqrConst) / Spyden.SqrtFn.sqrt 2)

/-- The draft `NOISE_STD_METHODS` registry: `iqr` and `diff`. -/
def NOISE_STD_METHODS : List (String × (List (List K) → List K)) :=
  [("iqr", Spyden.noise_std_iqr), ("diff", noise_std_diff)]

/-- Embedding of the draft `get_method`: the source wraps
`NOISE_STD_METHODS.get(name)` in `try ... except KeyError`, but
`dict.get` never raises `KeyError`, so the handler is dead code and the
function returns `None` (here `Option.none`) on an unknown name instead
of raising. -/
def get_method (name : String) :
    Except SpydenError (Option (List (List K) → List K)) :=
  .ok ((NOISE_STD_METHODS (K := K)).lookup name)

/-- Embedding of the draft `noise_std`: calls whatever `get_method`
returned; when that is `None`, the call `func(data)` fails with
`TypeError: NoneType object is not callable`. -/
def noise_std (data : List (List K)) (method : String) :
    Except SpydenError (List K) :=
  match get_method (K := K) method with
  | .error e => .error e
  | .ok (some f) => .ok (f data)
  | .ok none => .error .noneTypeNotCallable

end SpydenDraft

namespace Spyden

section HeapModel

variable {K : Type} [LinearOrderedField K] [SqrtFn K]

/-- A minimal numpy buffer heap, used to express the frame condition of
`snratio` (claim C9): buffers are identified by allocation index, views
(`reshape`) share the id of their base buffer, and in-place updates
write through the id. -/
structure Heap (K : Type) where
  next : ℕ
  store : ℕ → List (List K)

/-- Allocate a fresh buffer (e.g. `np.zeros`), returning its id. -/
def Heap.alloc (h : Heap K) (v : List (List K)) : ℕ × Heap K :=
  (h.next, ⟨h.next + 1, fun j => if j = h.next then v else h.store j⟩)

/-- Write a buffer in place. -/
def Heap.write (h : Heap K) (i : ℕ) (v : List (List K)) : Heap K :=
  ⟨h.next, fun j => if j = i then v else h.store j⟩

/-- Read a buffer (or a view of it). -/
def Heap.read (h : Heap K) (i : ℕ) : List (List K) := h.store i

/-- The model-reconstruction loop as the source writes it: one in-place
row write into the `models` buffer per profile (`models[iprof] = ...`;
the three assignments per iteration all target the same row, so the net
effect per iteration is one row write of the final row value). -/
def writeModelsLoop (h : Heap K) (mid : ℕ) (rows : List (List K)) : Heap K :=
  (rows.foldl (fun acc row =>
    (acc.1.write mid ((acc.1.read mid).set acc.2 row), acc.2 + 1)) (h, 0)).1

/-- Heap-level embedding of `snratio`: `data.reshape(-1, p)` is a view
of the caller's buffer (same id), read but never written; every
intermediate array (`x - mean`, the circular padding, the transforms and
their product) is a fresh allocation, modelled functionally by
`snratioCore` since none of them is ever written through; the only
buffer written in place is the freshly allocated `models`
(`np.zeros((nprof, p))`), row by row.  On a validation failure the call
aborts before the model loop. -/
def snratioHeap (h0 : Heap K) (dataId : ℕ) (temp : TempArg K)
    (mu sigma : MethodOrValue K) :
    Except SpydenError (SnrResult K) × Heap K :=
  let d := h0.read dataId
  let p := lastDim2 d
  match snratioCore d p temp mu sigma with
  | .error e => (.error e, h0)
  | .ok res =>
    let am := h0.alloc (List.replicate d.length (List.replicate p 0))
    (.ok res, writeModelsLoop am.2 am.1 res.models)

end HeapModel

section BasicLemmas

variable {K : Type} [LinearOrderedField K]

theorem getD_map_range (f : ℕ → K) (n k : ℕ) (hk : k < n) :
    ((List.range n).map f).getD k 0 = f k := by
  rw [List.getD_eq_getElem?_getD]
  simp [List.getElem?_map, List.getElem?_range, hk]

theorem rollZ_length (a : List K) (s : ℤ) : (rollZ a s).length = a.length := by
  simp [rollZ]

theorem rollZ_getD (a : List K) (s : ℤ) (k : ℕ) (hk : k < a.length) :
    (rollZ a s).getD k 0 = a.getD ((((k : ℤ) - s) % (a.length : ℤ)).toNat) 0 := by
  rw [rollZ, getD_map_range _ _ _ hk]

theorem emod_toNat_lt (x : ℤ) (n : ℕ) (hn : 0 < n) :
    (x % (n : ℤ)).toNat < n := by
  have h1 : x % (n : ℤ) < (n : ℤ) := Int.emod_lt_of_pos x (by exact_mod_cast hn)
  have h0 : (0 : ℤ) ≤ x % (n : ℤ) := Int.emod_nonneg x (by positivity)
  omega

theorem emod_add_cancel (x s : ℤ) (n : ℤ) :
    ((x - s) % n + s) % n = x % n := by
  conv_rhs => rw [show x = x - s + s by ring]
  rw [Int.add_emod, Int.emod_emod_of_dvd _ dvd_rfl, ← Int.add_emod]

theorem emod_sub_cancel (x s : ℤ) (n : ℤ) :
    ((x + s) % n - s) % n = x % n := by
  conv_rhs => rw [show x = x + s - s by ring]
  rw [Int.sub_emod, Int.emod_emod_of_dvd _ dvd_rfl, ← Int.sub_emod]

theorem sqsum_eq_sum_range (l : List K) :
    sqsum l = ∑ k ∈ Finset.range l.length, (l.getD k 0) ^ 2 := by
  induction l with
  | nil => simp [sqsum]
  | cons a t ih =>
    rw [sqsum, List.map_cons, List.sum_cons, ← sqsum]
    rw [List.length_cons, Finset.sum_range_succ']
    simp only [List.getD_cons_succ, List.getD_cons_zero]
    rw [ih, add_comm]

theorem sqsum_rollZ (a : List K) (s : ℤ) : sqsum (rollZ a s) = sqsum a := by
  rcases Nat.eq_zero_or_pos a.length with h0 | hpos
  · rw [List.length_eq_zero] at h0
    subst h0
    simp [rollZ]
  · rw [sqsum_eq_sum_range, sqsum_eq_sum_range, rollZ_length]
    refine Finset.sum_nbij'
      (fun k => (((k : ℤ) - s) % (a.length : ℤ)).toNat)
      (fun m => (((m : ℤ) + s) % (a.length : ℤ)).toNat) ?_ ?_ ?_ ?_ ?_
    · intro k _
      exact Finset.mem_range.mpr (emod_toNat_lt _ _ hpos)
    · intro m _
      exact Finset.mem_range.mpr (emod_toNat_lt _ _ hpos)
    · intro k hk
      have hk' := Finset.mem_range.mp hk
      dsimp only
      have hnn : (0 : ℤ) ≤ ((k : ℤ) - s) % (a.length : ℤ) :=
        Int.emod_nonneg _ (by positivity)
      rw [Int.toNat_of_nonneg hnn, emod_add_cancel,
        Int.emod_eq_of_lt (by positivity) (by exact_mod_cast hk')]
      simp
    · intro m hm
      have hm' := Finset.mem_range.mp hm
      dsimp only
      have hnn : (0 : ℤ) ≤ ((m : ℤ) + s) % (a.length : ℤ) :=
        Int.emod_nonneg _ (by positivity)
      rw [Int.toNat_of_nonneg hnn, emod_sub_cancel,
        Int.emod_eq_of_lt (by positivity) (by exact_mod_cast hm')]
      simp
    · intro k hk
      have hk' := Finset.mem_range.mp hk
      rw [rollZ_getD a s k (by omega)]

theorem sqsum_append (l l' : List K) :
    sqsum (l ++ l') = sqsum l + sqsum l' := by
  simp [sqsum]

theorem sqsum_reverse (l : List K) : sqsum l.reverse = sqsum l := by
  simp [sqsum, List.sum_reverse]

theorem sqsum_replicate_zero (n : ℕ) :
    sqsum (List.replicate n (0 : K)) = 0 := by
  simp [sqsum, List.map_replicate]

theorem sqsum_padRight (l : List K) (n : ℕ) :
    sqsum (padRight l n) = sqsum l := by
  rw [padRight, sqsum_append, sqsum_replicate_zero, add_zero]

theorem padRight_length (l : List K) (n : ℕ) (h : l.length ≤ n) :
    (padRight l n).length = n := by
  simp [padRight]
  omega

theorem getD_reverse (a : List K) (k : ℕ) (hk : k < a.length) :
    a.reverse.getD k 0 = a.getD (a.length - 1 - k) 0 := by
  rw [List.getD_eq_getElem?_getD, List.getD_eq_getElem?_getD]
  rw [List.getElem?_eq_getElem (by simpa using hk),
    List.getElem?_eq_getElem (by omega)]
  simp [List.getElem_reverse]

theorem preparedData_length (d : List K) (r n : ℕ) (hn : d.length ≤ n) :
    (preparedData d r n).length = n := by
  rw [preparedData, rollZ_length, List.length_reverse, rollZ_length,
    padRight_length _ _ hn]

theorem neg_one_emod_eq (n : ℤ) (hn : 0 < n) : (-1 : ℤ) % n = n - 1 := by
  have h1 : ((-1 : ℤ) + n * 1) % n = (-1 : ℤ) % n := Int.add_mul_emod_self_left (-1) n 1
  have h2 : ((-1 : ℤ) + n * 1) = n - 1 := by ring
  rw [h2] at h1
  rw [← h1, Int.emod_eq_of_lt (by omega) (by omega)]

theorem sqsum_preparedData (d : List K) (r n : ℕ) :
    sqsum (preparedData d r n) = sqsum d := by
  rw [preparedData]
  rw [sqsum_rollZ, sqsum_reverse, sqsum_rollZ, sqsum_padRight]

end BasicLemmas

section C1

variable {K : Type} [LinearOrderedField K]

/-- C1: for a unit-normalised template `d` with reference bin `r < size`
and any `n >= size`, `prepared_data(n)` has length exactly `n` and unit
sum of squares, and is the circular time-reversal of `x`, the template
zero-padded on the right to length `n` and rotated left by `r`:
`y[0] = x[0]` and `y[k] = x[n - k]` for `1 <= k < n`. -/
theorem prepared_data_circular_time_reversal
    (d : List K) (r n : ℕ) (hr : r < d.length) (hn : d.length ≤ n)
    (hunit : sqsum d = 1) :
    (preparedData d r n).length = n ∧
    sqsum (preparedData d r n) = 1 ∧
    (preparedData d r n).getD 0 0
      = (rollZ (padRight d n) (-(r : ℤ))).getD 0 0 ∧
    ∀ k, 1 ≤ k → k < n →
      (preparedData d r n).getD k 0
        = (rollZ (padRight d n) (-(r : ℤ))).getD (n - k) 0 := by
  have hnpos : 0 < n := by omega
  set x := rollZ (padRight d n) (-(r : ℤ)) with hx
  have hxlen : x.length = n := by
    rw [hx, rollZ_length, padRight_length _ _ hn]
  have hylen : (preparedData d r n).length = n := preparedData_length d r n hn
  have hy : preparedData d r n = rollZ x.reverse 1 := by
    rw [preparedData]
  have hrevlen : x.reverse.length = n := by
    rw [List.length_reverse, hxlen]
  refine ⟨hylen, by rw [sqsum_preparedData, hunit], ?_, ?_⟩
  · rw [hy, rollZ_getD _ _ 0 (by omega)]
    rw [hrevlen]
    have : (((0 : ℕ) : ℤ) - 1) % ((n : ℕ) : ℤ) = (n : ℤ) - 1 := by
      simpa using neg_one_emod_eq (n : ℤ) (by exact_mod_cast hnpos)
    rw [this]
    have htn : ((n : ℤ) - 1).toNat = n - 1 := by omega
    rw [htn, getD_reverse _ _ (by omega)]
    congr 1
    omega
  · intro k hk1 hkn
    rw [hy, rollZ_getD _ _ k (by omega)]
    rw [hrevlen]
    have : ((k : ℤ) - 1) % ((n : ℕ) : ℤ) = (k : ℤ) - 1 := by
      rw [Int.emod_eq_of_lt (by omega) (by exact_mod_cast (by omega : k - 1 < n) |>.trans_le le_rfl)]
    rw [this]
    have htn : ((k : ℤ) - 1).toNat = k - 1 := by omega
    rw [htn, getD_reverse _ _ (by omega)]
    congr 1
    omega

/-- C1 witness: the theorem applied to the concrete unit-energy template
`[3/5, 4/5]` with `refbin = 1`, padded to `n = 4`. -/
theorem prepared_data_circular_time_reversal_witness :
    (1 < ([3/5, 4/5] : List ℚ).length ∧ ([3/5, 4/5] : List ℚ).length ≤ 4 ∧
      sqsum ([3/5, 4/5] : List ℚ) = 1) ∧
    ((preparedData ([3/5, 4/5] : List ℚ) 1 4).length = 4 ∧
      sqsum (preparedData ([3/5, 4/5] : List ℚ) 1 4) = 1 ∧
      (preparedData ([3/5, 4/5] : List ℚ) 1 4).getD 0 0
        = (rollZ (padRight ([3/5, 4/5] : List ℚ) 4) (-(1 : ℤ))).getD 0 0 ∧
      ∀ k, 1 ≤ k → k < 4 →
        (preparedData ([3/5, 4/5] : List ℚ) 1 4).getD k 0
          = (rollZ (padRight ([3/5, 4/5] : List ℚ) 4) (-(1 : ℤ))).getD (4 - k) 0) :=
  ⟨⟨by decide, by decide, by norm_num [sqsum]⟩,
    prepared_data_circular_time_reversal [3/5, 4/5] 1 4
      (by decide) (by decide) (by norm_num [sqsum])⟩

end C1

section C3

variable {K : Type} [LinearOrderedField K]

theorem le_ceilpow2 (n : ℕ) : n ≤ ceilpow2 n :=
  Nat.le_pow_clog (by norm_num) n

theorem ceilpow2_lt_two_mul (n : ℕ) (hn : 1 ≤ n) : ceilpow2 n < 2 * n := by
  rcases Nat.lt_or_ge n 2 with h2 | h2
  · interval_cases n
    · rw [ceilpow2, Nat.clog]
      norm_num
  · have hc1 : 1 ≤ Nat.clog 2 n := by
      rw [Nat.one_le_iff_ne_zero]
      intro h0
      have := Nat.le_pow_clog (b := 2) (by norm_num) n
      rw [h0] at this
      omega
    have hlt : 2 ^ (Nat.clog 2 n - 1) < n :=
      Nat.pow_pred_clog_lt_self (by norm_num) h2
    have : ceilpow2 n = 2 * 2 ^ (Nat.clog 2 n - 1) := by
      rw [ceilpow2, ← pow_succ']
      congr 1
      omega
    omega

theorem cpadpow2_length (x : List K) : (cpadpow2 x).length = ceilpow2 x.length := by
  have := le_ceilpow2 x.length
  simp [cpadpow2]
  omega

/-- C3: `cpadpow2` pads the (last) axis from length `n >= 1` to
`N = 2 ^ ceil(log2 n)`, keeps the first `n` entries unchanged, fills
every index `k` in `[n, N)` with the wrapped value `input[k - n]`, and is
the identity when `n` is already a power of two. -/
theorem cpadpow2_wrap_pad (x : List K) (hn : 1 ≤ x.length) :
    (cpadpow2 x).length = ceilpow2 x.length ∧
    (∀ k, k < x.length → (cpadpow2 x).getD k 0 = x.getD k 0) ∧
    (∀ k, x.length ≤ k → k < ceilpow2 x.length →
      (cpadpow2 x).getD k 0 = x.getD (k - x.length) 0) ∧
    (∀ m, x.length = 2 ^ m → cpadpow2 x = x) := by
  refine ⟨cpadpow2_length x, ?_, ?_, ?_⟩
  · intro k hk
    rw [cpadpow2, List.getD_append _ _ _ _ hk]
  · intro k hkl hku
    have hwrap : ceilpow2 x.length < 2 * x.length := ceilpow2_lt_two_mul _ hn
    have hj : k - x.length < x.length := by omega
    rw [cpadpow2, List.getD_append_right _ _ _ _ hkl]
    rw [getD_map_range _ _ _ (by omega)]
    congr 1
    rw [Nat.add_mod_left, Nat.mod_eq_of_lt hj]
  · intro m hm
    have hN : ceilpow2 x.length = x.length := by
      rw [hm, ceilpow2, Nat.clog_pow 2 m (by norm_num)]
    rw [cpadpow2, hN]
    simp

/-- C3 witness: the theorem applied to a concrete length-5 input, whose
padded length is 8. -/
theorem cpadpow2_wrap_pad_witness :
    1 ≤ ([5, 6, 7, 8, 9] : List ℚ).length ∧
    ((cpadpow2 ([5, 6, 7, 8, 9] : List ℚ)).length
        = ceilpow2 ([5, 6, 7, 8, 9] : List ℚ).length ∧
      (∀ k, k < ([5, 6, 7, 8, 9] : List ℚ).length →
        (cpadpow2 ([5, 6, 7, 8, 9] : List ℚ)).getD k 0
          = ([5, 6, 7, 8, 9] : List ℚ).getD k 0) ∧
      (∀ k, ([5, 6, 7, 8, 9] : List ℚ).length ≤ k →
          k < ceilpow2 ([5, 6, 7, 8, 9] : List ℚ).length →
        (cpadpow2 ([5, 6, 7, 8, 9] : List ℚ)).getD k 0
          = ([5, 6, 7, 8, 9] : List ℚ).getD (k - ([5, 6, 7, 8, 9] : List ℚ).length) 0) ∧
      (∀ m, ([5, 6, 7, 8, 9] : List ℚ).length = 2 ^ m →
        cpadpow2 ([5, 6, 7, 8, 9] : List ℚ) = [5, 6, 7, 8, 9])) :=
  ⟨by decide, cpadpow2_wrap_pad [5, 6, 7, 8, 9] (by decide)⟩

end C3

section C7

variable {K : Type} [LinearOrderedField K]

/-- C7: `Template.prepared_data n` fails - with the `PaddingError` of the
spec taxonomy, carrying `n` and the template size - exactly when
`n < size`, and raises nothing for `n >= size`. -/
theorem prepared_data_error_iff (t : Template K) (n : ℕ) :
    (t.prepared_data n = .error (.padding n t.data.length) ↔ n < t.data.length) ∧
    (¬ n < t.data.length → t.prepared_data n = .ok (preparedData t.data t.refbin n)) := by
  constructor
  · constructor
    · intro h
      by_contra hlt
      rw [Template.prepared_data, if_neg hlt] at h
      exact Except.noConfusion h
    · intro hlt
      rw [Template.prepared_data, if_pos hlt]
  · intro hge
    rw [Template.prepared_data, if_neg hge]

end C7

/-- C7 witness: the checked `prepared_data` at a size-2 template, failing
at `n = 1` and succeeding at `n = 5`. -/
theorem prepared_data_error_iff_witness :
    ((⟨[1, 2], 0, "", ""⟩ : Template ℚ).prepared_data 1
        = .error (.padding 1 2)) ∧
    ((⟨[1, 2], 0, "", ""⟩ : Template ℚ).prepared_data 5
        = .ok (preparedData [1, 2] 0 5)) :=
  ⟨(prepared_data_error_iff (⟨[1, 2], 0, "", ""⟩ : Template ℚ) 1).1.mpr (by decide),
    (prepared_data_error_iff (⟨[1, 2], 0, "", ""⟩ : Template ℚ) 5).2 (by decide)⟩

section Normalisation

theorem sqsum_nonneg (l : List ℝ) : 0 ≤ sqsum l := by
  apply List.sum_nonneg
  intro v hv
  obtain ⟨w, _, rfl⟩ := List.mem_map.mp hv
  positivity

theorem sqsum_map_mul (d : List ℝ) (c : ℝ) :
    sqsum (d.map (fun v => v * c)) = sqsum d * c ^ 2 := by
  induction d with
  | nil => simp [sqsum]
  | cons a t ih =>
    simp only [List.map_cons, sqsum, List.sum_cons] at ih ⊢
    rw [ih]
    ring

theorem normalise_length (d : List ℝ) : (normalise d).length = d.length := by
  simp [normalise]

/-- Unit normalisation holds whenever the input has nonzero energy; the
all-zero input is exactly the case where it fails (claim C10). -/
theorem sqsum_normalise (d : List ℝ) (h : sqsum d ≠ 0) :
    sqsum (normalise d) = 1 := by
  have hpos : 0 < sqsum d := lt_of_le_of_ne (sqsum_nonneg d) (Ne.symm h)
  rw [normalise, sqsum_map_mul]
  have hc2 : (sqsum d ^ (-(1 : ℝ) / 2)) ^ 2 = (sqsum d)⁻¹ := by
    rw [← Real.rpow_natCast (sqsum d ^ (-(1 : ℝ) / 2)) 2,
      ← Real.rpow_mul (sqsum_nonneg d)]
    norm_num [Real.rpow_neg_one]
  rw [hc2, mul_inv_cancel₀ h]

end Normalisation

section C8C10

/-- C8 (amended): a successful `Template` construction guarantees the
1-D shape, non-emptiness, the refbin bound, and - provided the input has
nonzero sum of squares - unit normalisation; and construction fails with
an `InvalidShapeError` whenever the data is empty, not one-dimensional,
or the refbin is outside `[0, size)`. -/
theorem template_init_invariants (a : NDArray ℝ) (rb : ℤ)
    (ref kd : String) (hwf : a.flat.length = a.shape.prod) :
    (∀ t, Template.init a rb ref kd = .ok t →
      a.ndim = 1 ∧ 0 < t.data.length ∧ t.data.length = a.flat.length ∧
      t.refbin < t.data.length ∧ (sqsum a.flat ≠ 0 → sqsum t.data = 1)) ∧
    ((a.ndim ≠ 1 ∨ a.size = 0 ∨ rb < 0 ∨ (a.size : ℤ) ≤ rb) →
      ∃ msg, Template.init a rb ref kd = .error (.invalidShape msg)) := by
  have hsz : a.size = a.flat.length := by
    rw [NDArray.size, hwf]
  constructor
  · intro t h
    rw [Template.init] at h
    split_ifs at h with h1 h2 h3
    rw [Except.ok.injEq] at h
    subst h
    obtain ⟨hrb0, hrbs⟩ := h3
    rw [hsz] at h2 hrbs
    dsimp only
    refine ⟨not_not.mp h1, ?_, normalise_length a.flat, ?_, sqsum_normalise a.flat⟩
    · rw [normalise_length]
      omega
    · rw [normalise_length]
      omega
  · intro hbad
    by_cases c1 : a.ndim ≠ 1
    · exact ⟨_, by rw [Template.init, if_pos c1]⟩
    · by_cases c2 : a.size = 0
      · exact ⟨_, by rw [Template.init, if_neg c1, if_pos c2]⟩
      · have c3 : ¬ (0 ≤ rb ∧ rb < (a.size : ℤ)) := by
          rcases hbad with hb | hb | hb | hb
          · exact absurd hb c1
          · exact absurd hb c2
          · intro hc
            omega
          · intro hc
            omega
        exact ⟨_, by rw [Template.init, if_neg c1, if_neg c2, if_pos c3]⟩

/-- C8 witness: the amended invariants applied to the concrete input
`[3, 4]` (shape `[2]`) with `refbin = 1`. -/
theorem template_init_invariants_witness :
    (([3, 4] : List ℝ).length = ([2] : List ℕ).prod) ∧
    ((∀ t, Template.init ⟨[2], [3, 4]⟩ 1 "secondbin" "custom" = .ok t →
        NDArray.ndim (K := ℝ) ⟨[2], [3, 4]⟩ = 1 ∧ 0 < t.data.length ∧
        t.data.length = ([3, 4] : List ℝ).length ∧
        t.refbin < t.data.length ∧
        (sqsum ([3, 4] : List ℝ) ≠ 0 → sqsum t.data = 1)) ∧
      ((NDArray.ndim (K := ℝ) ⟨[2], [3, 4]⟩ ≠ 1 ∨
          NDArray.size (K := ℝ) ⟨[2], [3, 4]⟩ = 0 ∨ (1 : ℤ) < 0 ∨
          (NDArray.size (K := ℝ) ⟨[2], [3, 4]⟩ : ℤ) ≤ 1) →
        ∃ msg, Template.init ⟨[2], [3, 4]⟩ 1 "secondbin" "custom"
          = .error (.invalidShape msg))) :=
  ⟨by simp, template_init_invariants ⟨[2], [3, 4]⟩ 1 "secondbin" "custom" (by simp)⟩

/-- C8 counterexample: the claim's unconditional unit sum-of-squares
invariant is false - the all-zero length-1 input is accepted by every
constructor check, yet the stored data has sum of squares 0, not 1. -/
theorem template_init_unit_invariant_fails :
    ∃ t : Template ℝ, Template.init ⟨[1], [0]⟩ 0 "start" "undefined" = .ok t ∧
      sqsum t.data ≠ 1 := by
  refine ⟨⟨normalise [0], 0, "start", "undefined"⟩, ?_, ?_⟩
  · rw [Template.init]
    norm_num [NDArray.ndim, NDArray.size]
  · simp [normalise, sqsum]

/-- C10: there is a non-empty one-dimensional input - the all-zero array
with `refbin = 0` - on which `Template` construction succeeds without
raising, yet the unit sum-of-squares invariant is violated: the
normalisation constant `0 ** -0.5` is the junk value the arithmetic
model assigns to it (IEEE `inf`, producing non-finite stored data, in
the floating-point source), and the stored data has sum of squares 0. -/
theorem template_init_zero_data_no_failure :
    ∃ t : Template ℝ,
      Template.init ⟨[2], [0, 0]⟩ 0 "start" "undefined" = .ok t ∧
      0 < t.data.length ∧ sqsum t.data ≠ 1 := by
  refine ⟨⟨normalise [0, 0], 0, "start", "undefined"⟩, ?_, ?_, ?_⟩
  · rw [Template.init]
    norm_num [NDArray.ndim, NDArray.size]
  · simp [normalise]
  · simp [normalise, sqsum]

end C8C10

section C6

/-- Behaviour of the final-revision dispatch on an unknown name, for
contrast: the subscript lookup raises `KeyError`, which is caught and
re-raised listing the valid choices. -/
theorem get_std_method_unknown_lists_choices (name : String)
    (h : (NOISE_STD_METHODS (K := ℚ)).lookup name = none) :
    get_std_method (K := ℚ) name = .error (.unknownMethod ["iqr", "diffcov"]) := by
  rw [get_std_method, h]
  rfl

/-- C6 (code bug): in the draft revision of `noisestats.py`, `noise_std`
with an unrecognised method name does not fail with the error listing
the valid choices - `get_method` wraps `dict.get` in a dead
`except KeyError` handler, so `None` flows into the call `func(data)`
and the failure is `TypeError: NoneType object is not callable`, which
is not an `UnknownMethodError` for any list of choices. -/
theorem draft_noise_std_unknown_method_type_error :
    SpydenDraft.noise_std (K := ℚ) [[1, 2, 3, 4]] "foo"
        = .error SpydenError.noneTypeNotCallable ∧
    ∀ choices : List String,
      (SpydenError.noneTypeNotCallable : SpydenError) ≠ .unknownMethod choices := by
  constructor
  · rfl
  · intro choices h
    exact SpydenError.noConfusion h

end C6

section EngineLemmas

variable {K : Type} [LinearOrderedField K] [SqrtFn K]

theorem mapM_ok_spec {α β : Type} (f : α → Except SpydenError β)
    (l : List α) (out : List β) (da : α) (db : β)
    (h : l.mapM f = .ok out) :
    out.length = l.length ∧
      ∀ i, i < l.length → f (l.getD i da) = .ok (out.getD i db) := by
  induction l generalizing out with
  | nil =>
    rw [List.mapM_nil] at h
    cases h
    simp
  | cons a t ih =>
    rw [List.mapM_cons] at h
    cases hfa : f a with
    | error e =>
      rw [hfa] at h
      simp only [Bind.bind, Except.bind] at h
      exact Except.noConfusion h
    | ok b =>
      rw [hfa] at h
      simp only [Bind.bind, Except.bind] at h
      cases hft : t.mapM f with
      | error e =>
        rw [hft] at h
        simp at h
      | ok bs =>
        rw [hft] at h
        simp only [Pure.pure, Except.pure] at h
        cases h
        obtain ⟨hlen, hnth⟩ := ih bs hft
        refine ⟨by simp [hlen], ?_⟩
        intro i hi
        cases i with
        | zero => simpa using hfa
        | succ j =>
          simp only [List.getD_cons_succ]
          exact hnth j (by simpa using hi)

theorem templates_length_eq_ntemp (temp : TempArg K) :
    temp.templates.length = temp.ntemp := by
  cases temp <;> rfl

theorem normalizeRows_length (rows : List (List K)) (mean std : List K)
    (hm : mean.length = rows.length) (hs : std.length = rows.length) :
    (normalizeRows rows mean std).length = rows.length := by
  simp [normalizeRows, hm, hs]

theorem normalizeRows_row_length (rows : List (List K)) (mean std : List K)
    (r : List K) (hr : r ∈ normalizeRows rows mean std) :
    ∃ r0 ∈ rows, r.length = r0.length := by
  obtain ⟨rms, hmem, rfl⟩ := List.mem_map.mp hr
  obtain ⟨h1, _⟩ := List.mem_zip hmem
  exact ⟨rms.1, h1, by simp⟩

theorem get_mean_method_ok (s : String) (f : List (List K) → List K)
    (h : get_mean_method (K := K) s = .ok f) : f = noise_mean_median := by
  rw [get_mean_method] at h
  cases hl : (NOISE_MEAN_METHODS (K := K)).lookup s with
  | none =>
    rw [hl] at h
    dsimp only at h
    exact Except.noConfusion h
  | some f1 =>
    rw [hl] at h
    dsimp only at h
    injection h with h1
    have h2 : f1 = noise_mean_median := by
      rw [NOISE_MEAN_METHODS] at hl
      simp only [List.lookup] at hl
      split at hl
      · cases hl
        rfl
      · exact Option.noConfusion hl
    rw [← h1, h2]

theorem get_std_method_ok (s : String) (f : List (List K) → List K)
    (h : get_std_method (K := K) s = .ok f) :
    f = noise_std_iqr ∨ f = noise_std_diffcov := by
  rw [get_std_method] at h
  cases hl : (NOISE_STD_METHODS (K := K)).lookup s with
  | none =>
    rw [hl] at h
    dsimp only at h
    exact Except.noConfusion h
  | some f1 =>
    rw [hl] at h
    dsimp only at h
    injection h with h1
    have h2 : f1 = noise_std_iqr ∨ f1 = noise_std_diffcov := by
      rw [NOISE_STD_METHODS] at hl
      simp only [List.lookup] at hl
      split at hl
      · cases hl
        exact Or.inl rfl
      · split at hl
        · cases hl
          exact Or.inr rfl
        · exact Option.noConfusion hl
    rw [← h1]
    exact h2

theorem computeMeanArg_ok_length (rows : List (List K))
    (mu : MethodOrValue K) (mean : List K)
    (h : computeMeanArg rows mu rows.length = .ok mean) :
    mean.length = rows.length := by
  cases mu with
  | value v =>
    rw [computeMeanArg] at h
    cases h
    simp
  | name s =>
    rw [computeMeanArg] at h
    cases hg : get_mean_method (K := K) s with
    | error e =>
      rw [hg] at h
      dsimp only at h
      exact Except.noConfusion h
    | ok f =>
      rw [hg] at h
      dsimp only at h
      injection h with h1
      rw [get_mean_method_ok s f hg] at h1
      rw [← h1]
      simp [noise_mean_median]

theorem computeStdArg_ok_length (rows : List (List K))
    (sigma : MethodOrValue K) (std : List K)
    (h : computeStdArg rows sigma rows.length = .ok std) :
    std.length = rows.length := by
  cases sigma with
  | value v =>
    rw [computeStdArg] at h
    cases h
    simp
  | name s =>
    rw [computeStdArg] at h
    cases hg : get_std_method (K := K) s with
    | error e =>
      rw [hg] at h
      dsimp only at h
      exact Except.noConfusion h
    | ok f =>
      rw [hg] at h
      dsimp only at h
      injection h with h1
      rcases get_std_method_ok s f hg with hf | hf <;>
        rw [hf] at h1 <;> rw [← h1]
      · simp [noise_std_iqr]
      · simp [noise_std_diffcov]

/-- Inversion of a successful `snratioCore` run into its intermediate
values. -/
theorem snratioCore_ok_inv (rows : List (List K)) (p : ℕ) (temp : TempArg K)
    (mu sigma : MethodOrValue K) (res : SnrResult K)
    (h : snratioCore rows p temp mu sigma = .ok res) :
    ∃ mean std ys,
      computeMeanArg rows mu rows.length = .ok mean ∧
      computeStdArg rows sigma rows.length = .ok std ∧
      (temp.templates).mapM
        (fun t => t.prepared_data
          (lastDim2 ((normalizeRows rows mean std).map cpadpow2))) = .ok ys ∧
      res.mean = mean ∧ res.std = std ∧
      res.snr = ((normalizeRows rows mean std).map cpadpow2).map
        (fun xrow => ys.map (fun y => (cconv xrow y).take p)) ∧
      buildModels res.snr mean std temp.templates p = .ok res.models := by
  unfold snratioCore at h
  cases hm : computeMeanArg rows mu rows.length with
  | error e =>
    rw [hm] at h
    simp at h
  | ok mean =>
    rw [hm] at h
    dsimp only at h
    cases hs : computeStdArg rows sigma rows.length with
    | error e =>
      rw [hs] at h
      simp at h
    | ok std =>
      rw [hs] at h
      dsimp only at h
      cases hy : (temp.templates).mapM
          (fun t => t.prepared_data
            (lastDim2 ((normalizeRows rows mean std).map cpadpow2))) with
      | error e =>
        rw [hy] at h
        simp at h
      | ok ys =>
        rw [hy] at h
        dsimp only at h
        cases hb : buildModels
            (((normalizeRows rows mean std).map cpadpow2).map
              (fun xrow => ys.map (fun y => (cconv xrow y).take p)))
            mean std temp.templates p with
        | error e =>
          rw [hb] at h
          simp at h
        | ok models =>
          rw [hb] at h
          dsimp only at h
          cases h
          exact ⟨mean, std, ys, rfl, rfl, hy, rfl, rfl, rfl, hb⟩

theorem cconv_length (a b : List K) : (cconv a b).length = a.length := by
  simp [cconv]

end EngineLemmas

section C4

variable {K : Type} [LinearOrderedField K] [SqrtFn K]

/-- C4: a successful `snratio` call on a well-formed profile batch
returns an S/N map of shape exactly `(nprof, ntemp, p)` - the padded
region beyond the first `p` phase bins is truncated away - and `mean`
and `std` arrays of shape `(nprof,)`, where `nprof` is the number of
rows after 1-D input is reshaped to a single row. -/
theorem snratio_output_shapes (data : ProfileInput K) (temp : TempArg K)
    (mu sigma : MethodOrValue K) (res : SnrResult K)
    (hwf : ∀ r ∈ data.rows, r.length = data.lastDim)
    (h : snratio data temp mu sigma = .ok res) :
    res.snr.length = data.rows.length ∧
    (∀ plane ∈ res.snr, plane.length = temp.ntemp ∧
      ∀ row ∈ plane, row.length = data.lastDim) ∧
    res.mean.length = data.rows.length ∧
    res.std.length = data.rows.length := by
  rw [snratio] at h
  obtain ⟨mean, std, ys, hm, hs, hy, hrm, hrs, hrsnr, -⟩ :=
    snratioCore_ok_inv _ _ _ _ _ _ h
  have hml : mean.length = data.rows.length :=
    computeMeanArg_ok_length _ _ _ hm
  have hsl : std.length = data.rows.length :=
    computeStdArg_ok_length _ _ _ hs
  have hxp : ∀ xrow ∈ (normalizeRows data.rows mean std).map cpadpow2,
      xrow.length = ceilpow2 data.lastDim := by
    intro xrow hx
    obtain ⟨r, hr, rfl⟩ := List.mem_map.mp hx
    obtain ⟨r0, hr0, hlen⟩ := normalizeRows_row_length _ _ _ _ hr
    rw [cpadpow2_length, hlen, hwf r0 hr0]
  refine ⟨?_, ?_, by rw [hrm]; exact hml, by rw [hrs]; exact hsl⟩
  · rw [hrsnr, List.length_map, List.length_map,
      normalizeRows_length _ _ _ hml hsl]
  · intro plane hplane
    rw [hrsnr] at hplane
    obtain ⟨xrow, hxrow, rfl⟩ := List.mem_map.mp hplane
    constructor
    · rw [List.length_map, (mapM_ok_spec _ _ _ default [] hy).1,
        templates_length_eq_ntemp]
    · intro row hrow
      obtain ⟨y, hyy, rfl⟩ := List.mem_map.mp hrow
      rw [List.length_take, cconv_length, hxp xrow hxrow]
      exact min_eq_left (le_ceilpow2 _)

end C4

section Evaluation

theorem ceilpow2_two : ceilpow2 2 = 2 := by
  have h : Nat.clog 2 2 = 1 := by
    simpa using Nat.clog_pow 2 1 (by norm_num)
  rw [ceilpow2, h]
  norm_num

/-- A concrete engine run used by the engine witnesses: one profile
`[5, 1]` matched against the single-bin template `[1]` with literal noise
mean 2 and literal sigma 3.  The S/N map is the normalised profile
`[(5-2)/3, (1-2)/3]`, the winner is bin 0 with S/N 1, and the model is
`mean + std * 1 * template` at bin 0 and `mean` elsewhere. -/
theorem snratio_eval_example :
    snratio (K := ℚ) (.one [5, 1]) (.single ⟨[1], 0, "start", "boxcar"⟩)
      (.value 2) (.value 3)
      = .ok ⟨[[[1, -(1/3)]]], [2], [3], [[5, 2]]⟩ := by
  have hrange2 : List.range 2 = [0, 1] := rfl
  simp only [snratio, ProfileInput.rows, ProfileInput.lastDim, snratioCore,
    computeMeanArg, computeStdArg, List.length_cons, List.length_nil,
    List.replicate, normalizeRows, List.zip_cons_cons, List.zip_nil_right,
    List.zip_nil_left, List.map_cons, List.map_nil, lastDim2, List.headD,
    cpadpow2, List.length_cons, ceilpow2_two, TempArg.templates,
    Template.prepared_data, preparedData, padRight, List.length_map]
  norm_num [List.mapM.loop, Bind.bind, Except.bind, Pure.pure, Except.pure,
    ceilpow2_two, rollZ, cconv, buildModels, modelRow, argmaxIdx, addIntoSlice,
    List.getD, List.range_succ]

end Evaluation

section C4Witness

/-- C4 witness: the shape theorem applied to the concrete run of
`snratio_eval_example` (one profile of two bins, one template). -/
theorem snratio_output_shapes_witness :
    (∀ r ∈ ProfileInput.rows (K := ℚ) (.one [5, 1]),
        r.length = ProfileInput.lastDim (K := ℚ) (.one [5, 1])) ∧
    ((⟨[[[1, -(1/3)]]], [2], [3], [[5, 2]]⟩ : SnrResult ℚ).snr.length
        = (ProfileInput.rows (K := ℚ) (.one [5, 1])).length ∧
      (∀ plane ∈ (⟨[[[1, -(1/3)]]], [2], [3], [[5, 2]]⟩ : SnrResult ℚ).snr,
        plane.length = TempArg.ntemp (K := ℚ) (.single ⟨[1], 0, "start", "boxcar"⟩) ∧
        ∀ row ∈ plane, row.length = ProfileInput.lastDim (K := ℚ) (.one [5, 1])) ∧
      (⟨[[[1, -(1/3)]]], [2], [3], [[5, 2]]⟩ : SnrResult ℚ).mean.length
        = (ProfileInput.rows (K := ℚ) (.one [5, 1])).length ∧
      (⟨[[[1, -(1/3)]]], [2], [3], [[5, 2]]⟩ : SnrResult ℚ).std.length
        = (ProfileInput.rows (K := ℚ) (.one [5, 1])).length) :=
  ⟨by simp [ProfileInput.rows, ProfileInput.lastDim],
    snratio_output_shapes _ _ _ _ _
      (by simp [ProfileInput.rows, ProfileInput.lastDim])
      snratio_eval_example⟩

end C4Witness

section C5

variable {K : Type} [LinearOrderedField K] [SqrtFn K]

/-- C5: a numeric literal supplied as `mu` or `sigma` bypasses
estimation entirely - the corresponding returned array is exactly that
literal broadcast (`np.full`) to all `nprof` profile positions. -/
theorem snratio_literal_noise (data : ProfileInput K) (temp : TempArg K)
    (mu sigma : MethodOrValue K) (res : SnrResult K)
    (h : snratio data temp mu sigma = .ok res) :
    (∀ v, mu = .value v → res.mean = List.replicate data.rows.length v) ∧
    (∀ w, sigma = .value w → res.std = List.replicate data.rows.length w) := by
  rw [snratio] at h
  obtain ⟨mean, std, ys, hm, hs, hy, hrm, hrs, -, -⟩ :=
    snratioCore_ok_inv _ _ _ _ _ _ h
  constructor
  · rintro v rfl
    rw [hrm]
    rw [computeMeanArg] at hm
    cases hm
    rfl
  · rintro w rfl
    rw [hrs]
    rw [computeStdArg] at hs
    cases hs
    rfl

/-- C5 witness: literal `mu = 2`, `sigma = 3` on the concrete run of
`snratio_eval_example` are returned unchanged, broadcast to the one
profile. -/
theorem snratio_literal_noise_witness :
    (∀ v : ℚ, MethodOrValue.value (K := ℚ) 2 = .value v →
      (⟨[[[1, -(1/3)]]], [2], [3], [[5, 2]]⟩ : SnrResult ℚ).mean
        = List.replicate (ProfileInput.rows (K := ℚ) (.one [5, 1])).length v) ∧
    (∀ w : ℚ, MethodOrValue.value (K := ℚ) 3 = .value w →
      (⟨[[[1, -(1/3)]]], [2], [3], [[5, 2]]⟩ : SnrResult ℚ).std
        = List.replicate (ProfileInput.rows (K := ℚ) (.one [5, 1])).length w) :=
  snratio_literal_noise (.one [5, 1]) (.single ⟨[1], 0, "start", "boxcar"⟩)
    (.value 2) (.value 3) ⟨[[[1, -(1/3)]]], [2], [3], [[5, 2]]⟩
    snratio_eval_example

end C5

section C2Lemmas

variable {K : Type} [LinearOrderedField K]

theorem getD_map_lt {α β : Type} (f : α → β) (l : List α) (i : ℕ)
    (hi : i < l.length) (d : α) (d2 : β) :
    (l.map f).getD i d2 = f (l.getD i d) := by
  rw [List.getD_eq_getElem?_getD, List.getD_eq_getElem?_getD,
    List.getElem?_map, List.getElem?_eq_getElem hi]
  rfl

theorem getD_range (n i : ℕ) (hi : i < n) : (List.range n).getD i 0 = i := by
  rw [List.getD_eq_getElem?_getD, List.getElem?_range hi]
  rfl

theorem getD_replicate (a : K) (n m : ℕ) (hm : m < n) :
    (List.replicate n a).getD m 0 = a := by
  rw [List.getD_eq_getElem?_getD, List.getElem?_replicate]
  simp [hm]

theorem getD_zipWith (f : K → K → K) (a b : List K) (m : ℕ)
    (hma : m < a.length) (hmb : m < b.length) :
    (List.zipWith f a b).getD m 0 = f (a.getD m 0) (b.getD m 0) := by
  rw [List.getD_eq_getElem?_getD, List.getD_eq_getElem?_getD,
    List.getD_eq_getElem?_getD, List.getElem?_zipWith,
    List.getElem?_eq_getElem hma, List.getElem?_eq_getElem hmb]
  rfl

theorem getD_take {β : Type} (l : List β) (p k : ℕ) (hk : k < p) (d : β) :
    (l.take p).getD k d = l.getD k d := by
  rw [List.getD_eq_getElem?_getD, List.getD_eq_getElem?_getD, List.getElem?_take]
  simp [hk]

theorem getD_mem {β : Type} (l : List β) (n : ℕ) (hn : n < l.length) (d : β) :
    l.getD n d ∈ l := by
  rw [List.getD_eq_getElem?_getD, List.getElem?_eq_getElem hn]
  exact List.getElem_mem hn

theorem argmaxIdx_lt_length : ∀ (l : List K), l ≠ [] → argmaxIdx l < l.length
  | [], h => absurd rfl h
  | [_], _ => by simp [argmaxIdx]
  | a :: b :: rest, _ => by
    rw [argmaxIdx]
    have ih := argmaxIdx_lt_length (b :: rest) (by simp)
    split
    · simpa using Nat.succ_lt_succ ih
    · simp

theorem argmaxIdx_spec :
    ∀ (l : List K) (i : ℕ), i < l.length → l.getD i 0 ≤ l.getD (argmaxIdx l) 0
  | [], i, hi => by simp at hi
  | [a], i, hi => by
    have hi0 : i = 0 := by
      simp at hi
      omega
    subst hi0
    simp [argmaxIdx]
  | a :: b :: rest, i, hi => by
    rw [argmaxIdx]
    split
    · rename_i h
      cases i with
      | zero =>
        simp only [List.getD_cons_zero, List.getD_cons_succ]
        exact le_of_lt h
      | succ m =>
        simp only [List.getD_cons_succ]
        exact argmaxIdx_spec (b :: rest) m (by simpa using hi)
    · rename_i h
      push_neg at h
      cases i with
      | zero => simp
      | succ m =>
        simp only [List.getD_cons_succ, List.getD_cons_zero]
        exact le_trans (argmaxIdx_spec (b :: rest) m (by simpa using hi)) h

theorem flatten_length_rect (m : List (List K)) (p : ℕ)
    (hrect : ∀ r ∈ m, r.length = p) : m.flatten.length = m.length * p := by
  induction m with
  | nil => simp
  | cons r rest ih =>
    rw [List.flatten_cons, List.length_append, hrect r (by simp),
      ih (fun r2 hr2 => hrect r2 (by simp [hr2])), List.length_cons]
    ring

theorem flatten_getD_rect (m : List (List K)) (p : ℕ)
    (hrect : ∀ r ∈ m, r.length = p) (j k : ℕ) (hj : j < m.length)
    (hk : k < p) :
    m.flatten.getD (j * p + k) 0 = (m.getD j []).getD k 0 := by
  induction m generalizing j with
  | nil => simp at hj
  | cons r rest ih =>
    rw [List.flatten_cons]
    cases j with
    | zero =>
      simp only [Nat.zero_mul, Nat.zero_add, List.getD_cons_zero]
      exact List.getD_append _ _ _ _ (by rw [hrect r (by simp)]; exact hk)
    | succ j0 =>
      have hlen : r.length = p := hrect r (by simp)
      have hidx : (j0 + 1) * p + k = r.length + (j0 * p + k) := by
        rw [hlen]
        ring
      rw [hidx, List.getD_append_right _ _ _ _ (by omega),
        Nat.add_sub_cancel_left, List.getD_cons_succ]
      exact ih (fun r2 hr2 => hrect r2 (by simp [hr2])) j0 (by simpa using hj)

theorem addIntoSlice_ok_inv (base contrib row0 : List K)
    (h : addIntoSlice base contrib = .ok row0) :
    contrib.length ≤ base.length ∧ row0.length = base.length ∧
    (∀ m, m < contrib.length →
      row0.getD m 0 = base.getD m 0 + contrib.getD m 0) ∧
    (∀ m, contrib.length ≤ m → m < base.length →
      row0.getD m 0 = base.getD m 0) := by
  rw [addIntoSlice] at h
  split at h
  · rename_i hle
    cases h
    refine ⟨hle, ?_, ?_, ?_⟩
    · rw [List.length_append, List.length_zipWith, List.length_take,
        List.length_drop]
      omega
    · intro m hm
      rw [List.getD_append _ _ _ _
          (by rw [List.length_zipWith, List.length_take]; omega),
        getD_zipWith _ _ _ _ (by rw [List.length_take]; omega) hm,
        getD_take _ _ _ hm]
    · intro m hm hmb
      rw [List.getD_append_right _ _ _ _
          (by rw [List.length_zipWith, List.length_take]; omega)]
      rw [List.length_zipWith, List.length_take]
      have hmin : min (min contrib.length base.length) contrib.length
          = contrib.length := by omega
      rw [hmin, List.getD_eq_getElem?_getD, List.getElem?_drop,
        ← List.getD_eq_getElem?_getD]
      congr 1
      omega
  · exact Except.noConfusion h

theorem modelRow_ok_inv (plane : List (List K)) (mi si : K)
    (ts : List (Template K)) (p : ℕ) (row : List K)
    (h : modelRow plane mi si ts p = .ok row) :
    ∃ row0, addIntoSlice (List.replicate p mi)
        ((ts.getD (argmaxIdx plane.flatten / p) default).data.map
          (fun v => v * si *
            ((plane.getD (argmaxIdx plane.flatten / p) []).getD
              (argmaxIdx plane.flatten % p) 0))) = .ok row0 ∧
      row = rollZ row0 ((((argmaxIdx plane.flatten % p) : ℕ) : ℤ) -
        ((ts.getD (argmaxIdx plane.flatten / p) default).refbin : ℤ)) := by
  rw [modelRow] at h
  cases ha : addIntoSlice (List.replicate p mi)
      ((ts.getD (argmaxIdx plane.flatten / p) default).data.map
        (fun v => v * si *
          ((plane.getD (argmaxIdx plane.flatten / p) []).getD
            (argmaxIdx plane.flatten % p) 0))) with
  | error e =>
    rw [ha] at h
    simp at h
  | ok row0 =>
    rw [ha] at h
    dsimp only at h
    cases h
    exact ⟨row0, rfl, rfl⟩

end C2Lemmas

section C2

variable {K : Type} [LinearOrderedField K] [SqrtFn K]

/-- C2: in model-reconstruction mode, for profile `i`, with
`(itemp, ibin)` the (row-major first) argmax of the profile's S/N plane
and `t` the winning template of size at most `p`, the model row holds
`mean[i] + std[i] * snr[i, itemp, ibin] * t.data[m]` at phase bin
`(ibin - t.refbin + m) mod p` for every `m < t.size`, and `mean[i]` at
every other bin; the selected entry is indeed the maximum of the
plane. -/
theorem snratio_model_reconstruction (data : ProfileInput K)
    (temp : TempArg K) (mu sigma : MethodOrValue K) (res : SnrResult K)
    (hwf : ∀ r ∈ data.rows, r.length = data.lastDim)
    (h : snratio data temp mu sigma = .ok res)
    (i : ℕ) (hi : i < res.snr.length)
    (p : ℕ) (hp : p = data.lastDim)
    (plane : List (List K)) (hplaneDef : plane = res.snr.getD i [])
    (iflat : ℕ) (hiflatDef : iflat = argmaxIdx plane.flatten)
    (itemp : ℕ) (hitempDef : itemp = iflat / p)
    (ibin : ℕ) (hibinDef : ibin = iflat % p)
    (t : Template K) (htDef : t = temp.templates.getD itemp default)
    (best : K) (hbestDef : best = (plane.getD itemp []).getD ibin 0)
    (hts : 0 < t.data.length) (hsize : t.data.length ≤ p) :
    (∀ j k, j < plane.length → k < p → (plane.getD j []).getD k 0 ≤ best) ∧
    (∀ m, m < t.data.length →
      (res.models.getD i []).getD
          ((((ibin : ℤ) - t.refbin + m) % (p : ℤ)).toNat) 0
        = res.mean.getD i 0 + res.std.getD i 0 * best * t.data.getD m 0) ∧
    (∀ k, k < p →
      (∀ m, m < t.data.length →
        (k : ℤ) ≠ ((ibin : ℤ) - t.refbin + m) % (p : ℤ)) →
      (res.models.getD i []).getD k 0 = res.mean.getD i 0) := by
  have hppos : 0 < p := lt_of_lt_of_le hts hsize
  rw [snratio] at h
  obtain ⟨mean, std, ys, hm, hs, hy, hrm, hrs, hrsnr, hbm⟩ :=
    snratioCore_ok_inv _ _ _ _ _ _ h
  have hml : mean.length = data.rows.length :=
    computeMeanArg_ok_length _ _ _ hm
  have hsl : std.length = data.rows.length :=
    computeStdArg_ok_length _ _ _ hs
  -- the S/N plane of profile i and its shape
  have hxp : ∀ xrow ∈ (normalizeRows data.rows mean std).map cpadpow2,
      xrow.length = ceilpow2 p := by
    intro xrow hx
    rw [hp]
    obtain ⟨r, hr, rfl⟩ := List.mem_map.mp hx
    obtain ⟨r0, hr0, hlen⟩ := normalizeRows_row_length _ _ _ _ hr
    rw [cpadpow2_length, hlen, hwf r0 hr0]
  have hixp : i < ((normalizeRows data.rows mean std).map cpadpow2).length := by
    have := hi
    rw [hrsnr, List.length_map] at this
    exact this
  have hplaneEq : plane = ys.map
      (fun y => (cconv (((normalizeRows data.rows mean std).map cpadpow2).getD i []) y).take p) := by
    rw [hp, hplaneDef, hrsnr, getD_map_lt _ _ _ hixp [] []]
  have hrect : ∀ r ∈ plane, r.length = p := by
    intro r hr
    rw [hplaneEq] at hr
    obtain ⟨y, hyy, rfl⟩ := List.mem_map.mp hr
    rw [List.length_take, cconv_length,
      hxp _ (getD_mem _ _ hixp []), min_eq_left (le_ceilpow2 _)]
  -- the winning template index is within the bank
  have hitemp_ts : itemp < temp.templates.length := by
    by_contra hlt
    push_neg at hlt
    have ht0 : t = default := htDef.trans (List.getD_eq_default _ _ hlt)
    rw [ht0] at hts
    simp [default] at hts
  have hplen : plane.length = temp.templates.length := by
    rw [hplaneEq, List.length_map, (mapM_ok_spec _ _ _ default [] hy).1]
  have hplane_pos : 0 < plane.length := by
    rw [hplen]
    exact lt_of_le_of_lt (Nat.zero_le _) hitemp_ts
  have hflatlen : plane.flatten.length = plane.length * p :=
    flatten_length_rect _ _ hrect
  have hflat_ne : plane.flatten ≠ [] := by
    intro hempty
    rw [hempty] at hflatlen
    simp at hflatlen
    rcases hflatlen with h0 | h0
    · rw [h0] at hplane_pos
      simp at hplane_pos
    · omega
  have hiflat : iflat < plane.length * p := by
    rw [← hflatlen, hiflatDef]
    exact argmaxIdx_lt_length _ hflat_ne
  have hiflat2 : iflat < p * plane.length := by
    rw [Nat.mul_comm]
    exact hiflat
  have hitemp : itemp < plane.length := by
    rw [hitempDef]
    exact Nat.div_lt_of_lt_mul hiflat2
  have hibin : ibin < p := by
    rw [hibinDef]
    exact Nat.mod_lt _ hppos
  have hdecomp : itemp * p + ibin = iflat := by
    rw [hitempDef, hibinDef, Nat.mul_comm]
    exact Nat.div_add_mod iflat p
  have hbest_flat : plane.flatten.getD iflat 0 = best := by
    rw [hbestDef, ← hdecomp]
    exact flatten_getD_rect _ _ hrect _ _ hitemp hibin
  -- the model row of profile i
  rw [buildModels] at hbm
  obtain ⟨hmodlen, hmodnth⟩ := mapM_ok_spec _ _ _ 0 [] hbm
  have hmr := hmodnth i (by simpa using hi)
  rw [getD_range _ _ (by simpa using hi)] at hmr
  rw [← hp, ← hplaneDef] at hmr
  obtain ⟨row0, ha, hrow⟩ := modelRow_ok_inv _ _ _ _ _ _ hmr
  rw [← hiflatDef, ← hitempDef, ← hibinDef, ← htDef, ← hbestDef] at ha
  rw [← hiflatDef, ← hitempDef, ← hibinDef, ← htDef] at hrow
  obtain ⟨hle, hr0len, hr0lo, hr0hi⟩ := addIntoSlice_ok_inv _ _ _ ha
  have hr0len2 : row0.length = p := by simpa using hr0len
  refine ⟨?_, ?_, ?_⟩
  · -- maximality of the selected entry
    intro j k hj hk
    rw [← hbest_flat, ← flatten_getD_rect _ _ hrect _ _ hj hk]
    rw [hiflatDef]
    exact argmaxIdx_spec _ _ (by rw [hflatlen]; calc j * p + k < (j + 1) * p := by nlinarith
      _ ≤ plane.length * p := Nat.mul_le_mul_right _ (by omega))
  · -- the template region of the model row
    intro m hm
    have hmp : m < p := lt_of_lt_of_le hm hsize
    have hgi : (((ibin : ℤ) - t.refbin + m) % (p : ℤ)).toNat < row0.length := by
      rw [hr0len2]
      exact emod_toNat_lt _ _ hppos
    rw [hrow, rollZ_getD _ _ _ hgi, hr0len2]
    have hcast : (((((ibin : ℤ) - t.refbin + m) % (p : ℤ)).toNat : ℤ))
        = ((ibin : ℤ) - t.refbin + m) % (p : ℤ) :=
      Int.toNat_of_nonneg (Int.emod_nonneg _ (by positivity))
    rw [hcast]
    have hmod : (((ibin : ℤ) - t.refbin + m) % (p : ℤ)
        - ((ibin : ℤ) - t.refbin)) % (p : ℤ) = (m : ℤ) := by
      have h1 := emod_sub_cancel (m : ℤ) ((ibin : ℤ) - t.refbin) (p : ℤ)
      rw [show (m : ℤ) + ((ibin : ℤ) - t.refbin)
          = (ibin : ℤ) - t.refbin + m by ring] at h1
      rw [h1, Int.emod_eq_of_lt (by positivity) (by exact_mod_cast hmp)]
    rw [hmod, Int.toNat_natCast]
    have hv := hr0lo m (by simpa using hm)
    rw [hv, getD_replicate _ _ _ hmp, getD_map_lt _ _ _ hm 0 0, hrm, hrs]
    ring
  · -- bins outside the shifted template region hold the mean
    intro k hk hknot
    have hgk : k < row0.length := by
      rw [hr0len2]
      exact hk
    rw [hrow, rollZ_getD _ _ _ hgk, hr0len2]
    set m1 : ℕ := (((k : ℤ) - ((ibin : ℤ) - t.refbin)) % (p : ℤ)).toNat with hm1def
    have hm1lt : m1 < p := emod_toNat_lt _ _ hppos
    have hm1cast : ((m1 : ℕ) : ℤ) = ((k : ℤ) - ((ibin : ℤ) - t.refbin)) % (p : ℤ) := by
      rw [hm1def]
      exact Int.toNat_of_nonneg (Int.emod_nonneg _ (by positivity))
    have hm1ge : t.data.length ≤ m1 := by
      by_contra hm1s
      push_neg at hm1s
      have hk_eq : (k : ℤ) = ((ibin : ℤ) - t.refbin + m1) % (p : ℤ) := by
        rw [show (ibin : ℤ) - t.refbin + m1 = (m1 : ℤ) + ((ibin : ℤ) - t.refbin) by ring,
          hm1cast,
          show ((k : ℤ) - ((ibin : ℤ) - t.refbin)) % (p : ℤ) + ((ibin : ℤ) - t.refbin)
            = ((k : ℤ) - ((ibin : ℤ) - t.refbin)) % (p : ℤ) + ((ibin : ℤ) - t.refbin) from rfl]
        rw [show (((k : ℤ) - ((ibin : ℤ) - t.refbin)) % (p : ℤ) + ((ibin : ℤ) - t.refbin)) % (p : ℤ)
            = (k : ℤ) % (p : ℤ) from emod_add_cancel _ _ _]
        rw [Int.emod_eq_of_lt (by positivity) (by exact_mod_cast hk)]
      exact hknot m1 hm1s hk_eq
    have hv := hr0hi m1 (by simpa using hm1ge) (by simpa using hm1lt)
    rw [hv, getD_replicate _ _ _ hm1lt, hrm]

/-- C2 witness: the reconstruction theorem applied to the concrete run
of `snratio_eval_example`: the winner is `(itemp, ibin) = (0, 0)` with
S/N 1, the model holds `2 + 3 * 1 * 1 = 5` at bin 0 and the mean 2 at
bin 1. -/
theorem snratio_model_reconstruction_witness :
    (∀ j k, j < ([[(1 : ℚ), -(1/3)]] : List (List ℚ)).length → k < 2 →
      (([[(1 : ℚ), -(1/3)]] : List (List ℚ)).getD j []).getD k 0 ≤ 1) ∧
    (∀ m, m < ([(1 : ℚ)] : List ℚ).length →
      ([(5 : ℚ), 2] : List ℚ).getD
          (((((0 : ℕ) : ℤ) - ((0 : ℕ) : ℤ) + m) % (((2 : ℕ)) : ℤ)).toNat) 0
        = 2 + 3 * 1 * ([(1 : ℚ)] : List ℚ).getD m 0) ∧
    (∀ k : ℕ, k < 2 →
      (∀ m, m < ([(1 : ℚ)] : List ℚ).length →
        (k : ℤ) ≠ (((0 : ℕ) : ℤ) - ((0 : ℕ) : ℤ) + m) % (((2 : ℕ)) : ℤ)) →
      ([(5 : ℚ), 2] : List ℚ).getD k 0 = 2) :=
  snratio_model_reconstruction (.one [5, 1]) (.single ⟨[1], 0, "start", "boxcar"⟩)
    (.value 2) (.value 3) ⟨[[[1, -(1/3)]]], [2], [3], [[5, 2]]⟩
    (by simp [ProfileInput.rows, ProfileInput.lastDim]) snratio_eval_example
    0 (by simp) 2 rfl [[1, -(1/3)]] rfl
    0 (by norm_num [argmaxIdx, List.flatten, List.getD])
    0 rfl 0 rfl ⟨[1], 0, "start", "boxcar"⟩ rfl 1 rfl
    (by decide) (by decide)

end C2

section C9

variable {K : Type} [LinearOrderedField K] [SqrtFn K]

theorem writeModelsLoop_foldl_store_ne (rows : List (List K)) (mid j : ℕ)
    (hj : j ≠ mid) :
    ∀ acc : Heap K × ℕ,
      ((rows.foldl (fun acc row =>
        (acc.1.write mid ((acc.1.read mid).set acc.2 row), acc.2 + 1)) acc).1).store j
        = acc.1.store j := by
  induction rows with
  | nil =>
    intro acc
    rfl
  | cons r rest ih =>
    intro acc
    rw [List.foldl_cons, ih]
    simp [Heap.write, hj]

/-- C9: `snratio` never writes the caller's input buffer - in the heap
embedding, the input buffer's contents after the call (successful or
not) are exactly its contents before the call.  The only in-place
writes of the engine target the freshly allocated `models` buffer. -/
theorem snratio_heap_preserves_caller (h0 : Heap K) (dataId : ℕ)
    (temp : TempArg K) (mu sigma : MethodOrValue K)
    (hid : dataId < h0.next) :
    ((snratioHeap h0 dataId temp mu sigma).2).store dataId
      = h0.store dataId := by
  rw [snratioHeap]
  cases hc : snratioCore (h0.read dataId) (lastDim2 (h0.read dataId))
      temp mu sigma with
  | error e => rfl
  | ok res =>
    dsimp only
    rw [writeModelsLoop, writeModelsLoop_foldl_store_ne _ _ _ (by
      rw [Heap.alloc]
      omega)]
    rw [Heap.alloc]
    dsimp only
    rw [if_neg (by omega)]

/-- C9 witness: a concrete heap holding one caller buffer `[[1, 2]]` at
id 0; after a full `snratio` run the buffer still holds `[[1, 2]]`. -/
theorem snratio_heap_preserves_caller_witness :
    (0 : ℕ) < 1 ∧
    ((snratioHeap (K := ℚ) ⟨1, fun j => if j = 0 then [[1, 2]] else []⟩ 0
        (.single ⟨[1], 0, "start", "boxcar"⟩) (.value 0) (.value 1)).2).store 0
      = [[1, 2]] :=
  ⟨Nat.zero_lt_one,
    snratio_heap_preserves_caller ⟨1, fun j => if j = 0 then [[1, 2]] else []⟩ 0
      (.single ⟨[1], 0, "start", "boxcar"⟩) (.value 0) (.value 1) Nat.zero_lt_one⟩

end C9

end Spyden

